import Mathlib

/-!
Verification of the Pulsar ECS scheduler specification.

The repository's source files are usage samples (`engine_main.rs`,
`main.rs`); the scheduler, world and storage behaviour they exercise is
given by the specification, so those parts are modelled from the spec.
The sample system `player_update_system` is embedded directly from
`src/public/sample_files/architecture/engine_main.rs`.
-/

namespace Pulsar

/-- Access mode of one entry of an Access Descriptor. -/
inductive Mode where
  | read
  | write
deriving DecidableEq, Repr

/-- One `{type, mode}` entry of an Access Descriptor (type id as a `Nat`). -/
structure Access where
  typ : Nat
  mode : Mode
deriving DecidableEq, Repr

/-- Modelled from the spec: an Access Descriptor, the static metadata of a
registered system, listing component-type and resource-type accesses. -/
structure AccessDescriptor where
  components : List Access
  resources : List Access
deriving DecidableEq, Repr

/-- Two single accesses collide when they name the same type and at least
one side's mode is Write. -/
def accessCollides (a b : Access) : Bool :=
  a.typ == b.typ && (a.mode == Mode.write || b.mode == Mode.write)

/-- Modelled from the spec: (§4.5, missing from src) two systems conflict
iff they share a component type or resource type where at least one side's
mode is Write, computed purely from the Access Descriptors. -/
def conflicts (d1 d2 : AccessDescriptor) : Bool :=
  d1.components.any (fun a => d2.components.any (fun b => accessCollides a b)) ||
  d1.resources.any (fun a => d2.resources.any (fun b => accessCollides a b))

/-- Modelled from the spec: (§4.6, missing from src) place one system into
the earliest Execution Group with no conflicting member, else open a new
group at the end. -/
def placeSystem (groups : List (List AccessDescriptor)) (d : AccessDescriptor) :
    List (List AccessDescriptor) :=
  match groups with
  | [] => [[d]]
  | g :: rest =>
    if g.any (fun d2 => conflicts d2 d) then g :: placeSystem rest d
    else (g ++ [d]) :: rest

/-- Modelled from the spec: (§4.6, missing from src) the Scheduler's build
operation — greedy graph coloring over the registration-ordered system
list. -/
def buildPlan (systems : List AccessDescriptor) : List (List AccessDescriptor) :=
  systems.foldl placeSystem []

/-- The index of the earliest group with no member conflicting with `d`
(`groups.length` when every existing group conflicts). -/
def earliestFit (groups : List (List AccessDescriptor)) (d : AccessDescriptor) : Nat :=
  match groups with
  | [] => 0
  | g :: rest =>
    if g.any (fun d2 => conflicts d2 d) then earliestFit rest d + 1 else 0

/-- Append `d` to the group at index `k`, or open a new singleton group when
`k` is past the end. -/
def appendAt (groups : List (List AccessDescriptor)) (k : Nat) (d : AccessDescriptor) :
    List (List AccessDescriptor) :=
  match groups, k with
  | [], _ => [[d]]
  | g :: rest, 0 => (g ++ [d]) :: rest
  | g :: rest, k + 1 => g :: appendAt rest k d

/-- A group is conflict-free when no two of its members conflict. -/
def groupOk (g : List AccessDescriptor) : Prop :=
  g.Pairwise (fun a b => conflicts a b = false)

/-- Modelled from the spec: a second rendering of the Build operation that
follows the spec's words literally — each system goes into the earliest
group with no conflicting member, else a new group is opened. -/
def buildPlanSpec (systems : List AccessDescriptor) : List (List AccessDescriptor) :=
  systems.foldl (fun gs d => appendAt gs (earliestFit gs d) d) []

/-- Entity handle: an (index, generation) pair. -/
structure Entity where
  idx : Nat
  gen : Nat
deriving DecidableEq, Repr

/-- One slot of the entity allocator: current generation and liveness. -/
structure Slot where
  gen : Nat
  alive : Bool
deriving DecidableEq, Repr

/-- Modelled from the spec: (§4.2, missing from src) the Resource Store,
singleton storage keyed by type id. -/
structure ResStore (α : Type) where
  entries : List (Nat × α)
deriving DecidableEq, Repr

def ResStore.empty : ResStore α := ⟨[]⟩

/-- `get<T>()`: absence is the recoverable empty result, never a failure. -/
def ResStore.get (r : ResStore α) (t : Nat) : Option α :=
  (r.entries.find? (fun p => p.1 == t)).map (fun p => p.2)

/-- `insert<T>(value)`: registers or overwrites the singleton of type `t`. -/
def ResStore.insert (r : ResStore α) (t : Nat) (v : α) : ResStore α :=
  ⟨(t, v) :: r.entries.filter (fun p => !(p.1 == t))⟩

/-- Modelled from the spec: (§4.1–§4.3, missing from src) the World —
entity slots, free list of reusable indices, columnar component storage
as (componentType, entityIndex, value) triples, and the Resource Store. -/
structure World (α : Type) where
  slots : List Slot
  freeList : List Nat
  comps : List (Nat × Nat × α)
  resources : ResStore α
deriving Repr

def World.empty : World α := ⟨[], [], [], ResStore.empty⟩

/-- Generation currently stored at slot `i`. -/
def World.slotGen (w : World α) (i : Nat) : Nat :=
  (w.slots.getD i ⟨0, false⟩).gen

/-- Liveness of slot `i`. -/
def World.slotAlive (w : World α) (i : Nat) : Bool :=
  (w.slots.getD i ⟨0, false⟩).alive

/-- A handle is valid iff the stored generation at its index matches and
the slot is live; anything else is the recoverable `InvalidEntity`. -/
def World.isValid (w : World α) (e : Entity) : Bool :=
  match w.slots[e.idx]? with
  | some s => s.alive && s.gen == e.gen
  | none => false

/-- `spawn()`: reuse a freed index at its current (already incremented)
generation when available, else append a fresh slot at generation 0. -/
def World.spawn (w : World α) : World α × Entity :=
  match w.freeList with
  | [] =>
    ({ w with slots := w.slots ++ [⟨0, true⟩] }, ⟨w.slots.length, 0⟩)
  | i :: rest =>
    let g := (w.slots.getD i ⟨0, false⟩).gen
    ({ w with slots := w.slots.set i ⟨g, true⟩, freeList := rest }, ⟨i, g⟩)

/-- `despawn(entity)`: removes all components of the entity, increments
the slot's generation and frees the index; a no-op on an invalid handle. -/
def World.despawn (w : World α) (e : Entity) : World α :=
  if w.isValid e then
    { w with slots := w.slots.set e.idx ⟨e.gen + 1, false⟩,
             freeList := w.freeList ++ [e.idx],
             comps := w.comps.filter (fun c => !(c.2.1 == e.idx)) }
  else w

/-- Raw storage lookup of component `t` at slot index `i` (no validity
check). -/
def World.compAt (w : World α) (t : Nat) (i : Nat) : Option α :=
  (w.comps.find? (fun c => c.1 == t && c.2.1 == i)).map (fun c => c.2.2)

/-- `get::<T>(e)`: empty on an invalid handle (`InvalidEntity` is "no
match") or on an absent component. -/
def World.getComp (w : World α) (t : Nat) (e : Entity) : Option α :=
  if w.isValid e then w.compAt t e.idx else none

/-- `insert(entity, value)`: add or overwrite component `t`; no-op on an
invalid handle. -/
def World.insertComp (w : World α) (t : Nat) (e : Entity) (v : α) : World α :=
  if w.isValid e then
    { w with comps := (t, e.idx, v) :: w.comps.filter (fun c => !(c.1 == t && c.2.1 == e.idx)) }
  else w

/-- `remove(entity)`: drop component `t` if present; no-op otherwise. -/
def World.removeComp (w : World α) (t : Nat) (e : Entity) : World α :=
  if w.isValid e then
    { w with comps := w.comps.filter (fun c => !(c.1 == t && c.2.1 == e.idx)) }
  else w

/-- A structural change: spawn, despawn, component insert or remove. -/
inductive Cmd (α : Type) where
  | spawnCmd
  | despawnCmd (e : Entity)
  | insertCmd (t : Nat) (e : Entity) (v : α)
  | removeCmd (t : Nat) (e : Entity)

/-- Apply one structural change to the World. -/
def World.applyCmd (w : World α) : Cmd α → World α
  | .spawnCmd => w.spawn.1
  | .despawnCmd e => w.despawn e
  | .insertCmd t e v => w.insertComp t e v
  | .removeCmd t e => w.removeComp t e

/-- Apply a queue of structural changes in submission order. -/
def World.applyCmds (w : World α) (cmds : List (Cmd α)) : World α :=
  cmds.foldl World.applyCmd w

/-- Run a structural-change sequence from `w`, collecting the handle
returned by every spawn in order. -/
def runTrace (w : World α) : List (Cmd α) → World α × List Entity
  | [] => (w, [])
  | Cmd.spawnCmd :: rest =>
    let p := w.spawn
    let q := runTrace p.1 rest
    (q.1, p.2 :: q.2)
  | c :: rest => runTrace (w.applyCmd c) rest

/-- Allocator well-formedness: the free list exactly enumerates the dead
slots, without duplicates. -/
def World.WF (w : World α) : Prop :=
  w.freeList.Nodup ∧
  (∀ i ∈ w.freeList, i < w.slots.length ∧ w.slotAlive i = false) ∧
  (∀ i, i < w.slots.length → w.slotAlive i = false → i ∈ w.freeList)

/-- The handle is stale: its generation is strictly below the stored one.
Stale handles are permanently invalid. -/
def World.staleFor (w : World α) (e : Entity) : Prop :=
  e.idx < w.slots.length ∧ e.gen < w.slotGen e.idx

/-- A direct data write through a mutable borrow: overwrite the value of
an existing (componentType, entityIndex) cell; absent cells are
unaffected and identity is preserved. -/
def World.applyWrite (w : World α) (wr : Nat × Nat × α) : World α :=
  { w with comps := w.comps.map (fun c =>
      if c.1 == wr.1 && c.2.1 == wr.2.1 then (c.1, c.2.1, wr.2.2) else c) }

/-- A direct resource write through a `ResMut` borrow. -/
def World.applyResWrite (w : World α) (wr : Nat × α) : World α :=
  { w with resources := w.resources.insert wr.1 wr.2 }

/-- The observable effect of one system invocation: in-place component
writes, in-place resource writes, and deferred structural changes. -/
structure SysEff (α : Type) where
  writes : List (Nat × Nat × α)
  resWrites : List (Nat × α)
  cmds : List (Cmd α)

/-- A system: reads the group-start World and produces its effect. -/
def Sys (α : Type) := World α → SysEff α

/-- Modelled from the spec: (§4.6 Execute, missing from src) run one
Execution Group — every member system observes the same group-start
World, the in-place data writes land during the group, and the deferred
structural changes are applied in submission order at the sync point
after the group. -/
def stepGroup (w : World α) (g : List (Sys α)) : World α :=
  let effs := g.map (fun s => s w)
  let w1 := ((effs.map SysEff.writes).flatten).foldl World.applyWrite w
  let w2 := ((effs.map SysEff.resWrites).flatten).foldl World.applyResWrite w1
  ((effs.map SysEff.cmds).flatten).foldl World.applyCmd w2

/-- Modelled from the spec: execute one frame — run the plan's Execution
Groups in order. -/
def runFrame (w : World α) (plan : List (List (Sys α))) : World α :=
  plan.foldl stepGroup w

/-- The World at the start of group `k` of the frame. -/
def groupStart (w : World α) (plan : List (List (Sys α))) : Nat → World α
  | 0 => w
  | k + 1 => stepGroup (groupStart w plan k) (plan.getD k [])

/-- The deferred structural-change queue submitted by group `k`, in
submission order. -/
def groupCmds (w : World α) (plan : List (List (Sys α))) (k : Nat) : List (Cmd α) :=
  (((plan.getD k []).map (fun s => (s (groupStart w plan k)).cmds)).flatten)

/-- The in-place component writes of group `k`, in submission order. -/
def groupWrites (w : World α) (plan : List (List (Sys α))) (k : Nat) :
    List (Nat × Nat × α) :=
  (((plan.getD k []).map (fun s => (s (groupStart w plan k)).writes)).flatten)

/-- The in-place resource writes of group `k`, in submission order. -/
def groupResWrites (w : World α) (plan : List (List (Sys α))) (k : Nat) :
    List (Nat × α) :=
  (((plan.getD k []).map (fun s => (s (groupStart w plan k)).resWrites)).flatten)

/-- A fallible system: `none` models a `SystemPanic` of the invocation. -/
def SysR (α : Type) := World α → Option (SysEff α)

/-- Indices (counting from `i`) of the systems of a group whose
invocation on `w` fails. -/
def groupFailuresAux (w : World α) (i : Nat) : List (SysR α) → List Nat
  | [] => []
  | s :: rest =>
    match s w with
    | none => i :: groupFailuresAux w (i + 1) rest
    | some _ => groupFailuresAux w (i + 1) rest

/-- Modelled from the spec: (§4.6 failure semantics, missing from src)
run one group of fallible systems — a failing member is recorded and
skipped, the others' effects still land. -/
def stepGroupR (w : World α) (g : List (SysR α)) : World α × List Nat :=
  let effs := g.filterMap (fun s => s w)
  let w1 := ((effs.map SysEff.writes).flatten).foldl World.applyWrite w
  let w2 := ((effs.map SysEff.resWrites).flatten).foldl World.applyResWrite w1
  (((effs.map SysEff.cmds).flatten).foldl World.applyCmd w2,
   groupFailuresAux w 0 g)

/-- Frame execution with failure aggregation: every group still runs;
failures are reported as (group index, system index) pairs. -/
def advanceFrameAux (w : World α) (k : Nat) :
    List (List (SysR α)) → World α × List (Nat × Nat)
  | [] => (w, [])
  | g :: rest =>
    let p := stepGroupR w g
    let q := advanceFrameAux p.1 (k + 1) rest
    (q.1, p.2.map (fun i => (k, i)) ++ q.2)

/-- Modelled from the spec: (§6/§7, missing from src) `advance_frame` —
returns the post-frame World and the list of per-system failures; the
frame always completes. -/
def advanceFrame (w : World α) (plan : List (List (SysR α))) :
    World α × List (Nat × Nat) :=
  advanceFrameAux w 0 plan

/-- The World at the start of group `k` under the fallible executor. -/
def groupStartR (w : World α) (plan : List (List (SysR α))) : Nat → World α
  | 0 => w
  | k + 1 => (stepGroupR (groupStartR w plan k) (plan.getD k [])).1

/-- Events observable from the Runtime Loop. -/
inductive RuntimeEvent where
  | startupEvt
  | frameEvt
deriving DecidableEq, Repr

/-- Run `n` frames, recording one frame event per frame. -/
def runFrames (plan : List (List (Sys α))) : Nat → World α → World α × List RuntimeEvent
  | 0, w => (w, [])
  | n + 1, w =>
    let q := runFrames plan n (runFrame w plan)
    (q.1, RuntimeEvent.frameEvt :: q.2)

/-- Apply a startup handler's effect directly (it runs outside any group). -/
def applyEff (w : World α) (eff : SysEff α) : World α :=
  (eff.cmds.foldl World.applyCmd
    ((eff.resWrites).foldl World.applyResWrite ((eff.writes).foldl World.applyWrite w)))

/-- The result of one run: final World, event trace, and whether the
startup handler failed. -/
structure RunReport (α : Type) where
  world : World α
  events : List RuntimeEvent
  startupFailed : Bool

/-- Modelled from the spec: (§4.7, missing from src) the Runtime Loop —
the one-shot startup event (`begin_play` pattern) is invoked exactly
once, synchronously, before the first frame; a failure is surfaced in
the report but the frames still run. -/
def Runtime.run (startupHandler : World α → Option (SysEff α))
    (plan : List (List (Sys α))) (w : World α) (n : Nat) : RunReport α :=
  match startupHandler w with
  | some eff =>
    let q := runFrames plan n (applyEff w eff)
    ⟨q.1, RuntimeEvent.startupEvt :: q.2, false⟩
  | none =>
    let q := runFrames plan n w
    ⟨q.1, RuntimeEvent.startupEvt :: q.2, true⟩

/-- A concrete system used as a test vector: it defers a despawn of the
entity handle (0, 0) and does nothing else. -/
def sysDespawner : Sys Nat := fun _ => ⟨[], [], [Cmd.despawnCmd ⟨0, 0⟩]⟩

/-- A concrete fallible system that always fails (`SystemPanic`). -/
def sysPanics : SysR Nat := fun _ => none

/-- A concrete fallible system that always succeeds with no effect. -/
def sysNoEffect : SysR Nat := fun _ => some ⟨[], [], []⟩

/-- 3-component vector; scalars are exact rationals in the model. -/
structure Vec3 where
  x : ℚ
  y : ℚ
  z : ℚ
deriving DecidableEq, Repr

/-- The component and resource values the samples use. -/
inductive Val where
  | transform (translation : Vec3)
  | playerData (velocity : Vec3)
  | timeVal (delta : ℚ)
  | scoreVal (s : ℚ)
deriving DecidableEq, Repr

/-- Type id of the `Transform`/`Position` component. -/
def PositionId : Nat := 0

/-- Type id of the `PlayerData` component. -/
def PlayerDataId : Nat := 1

/-- Type id of the `Time`/`Clock` resource. -/
def ClockId : Nat := 10

/-- Type id of the `Score` resource. -/
def ScoreId : Nat := 11

/-- The query `Query<(&mut Transform, &PlayerData)>`: live entities whose
component set has both types, in ascending index order, with the two
component values. -/
def queryTransformPlayer (w : World Val) : List (Nat × Vec3 × Vec3) :=
  (List.range w.slots.length).filterMap (fun i =>
    if w.slotAlive i then
      match w.compAt PositionId i, w.compAt PlayerDataId i with
      | some (Val.transform tr), some (Val.playerData vel) => some (i, tr, vel)
      | _, _ => none
    else none)

/-- The translations of all live entities that have a `Transform`. -/
def queryTransforms (w : World Val) : List Vec3 :=
  (List.range w.slots.length).filterMap (fun i =>
    if w.slotAlive i then
      match w.compAt PositionId i with
      | some (Val.transform tr) => some tr
      | _ => none
    else none)

/-- The loop body of `player_update_system` as one data write:
`transform.translation.y += player.velocity.y * time.delta_seconds()`
(`x` and `z` carried over unchanged). -/
def playerWrite (delta : ℚ) (m : Nat × Vec3 × Vec3) : Nat × Nat × Val :=
  (PositionId, m.1, Val.transform ⟨m.2.1.x, m.2.1.y + m.2.2.y * delta, m.2.1.z⟩)

/-- Embedded from `src/public/sample_files/architecture/engine_main.rs`
(`player_update_system`): for each entity matched by
`Query<(&mut Transform, &PlayerData)>`, apply `playerWrite`; nothing
else is touched.  A missing `Time` resource is the recoverable empty
result, so the system writes nothing. -/
def player_update_system : Sys Val := fun w =>
  match w.resources.get ClockId with
  | some (Val.timeVal delta) =>
    { writes := (queryTransformPlayer w).map (playerWrite delta),
      resWrites := [], cmds := [] }
  | _ => { writes := [], resWrites := [], cmds := [] }

/-- Modelled from the spec: (end-to-end scenario, missing from src)
system B — reads the `Position` components and writes the `Score`
resource. -/
def scoreSystem : Sys Val := fun w =>
  { writes := [],
    resWrites := [(ScoreId, Val.scoreVal (((queryTransforms w).map Vec3.y).sum))],
    cmds := [] }

/-- Access Descriptor of scenario system A: reads resource `Clock`,
writes component `Position`. -/
def descA : AccessDescriptor :=
  ⟨[⟨PositionId, Mode.write⟩], [⟨ClockId, Mode.read⟩]⟩

/-- Access Descriptor of scenario system B: reads component `Position`,
writes resource `Score`. -/
def descB : AccessDescriptor :=
  ⟨[⟨PositionId, Mode.read⟩], [⟨ScoreId, Mode.write⟩]⟩

/-- The scenario entity handle. -/
def e0 : Entity := ⟨0, 0⟩

/-- The scenario World: one live entity with `Position{y:0}` and
`velocity.y = 5`, and the `Clock` resource at `delta = 1.0`. -/
def w9 : World Val :=
  { slots := [⟨0, true⟩],
    freeList := [],
    comps := [(PositionId, 0, Val.transform ⟨0, 0, 0⟩),
              (PlayerDataId, 0, Val.playerData ⟨0, 5, 0⟩)],
    resources := ⟨[(ClockId, Val.timeVal 1)]⟩ }

theorem accessCollides_symm (a b : Access) : accessCollides a b = accessCollides b a := by
  unfold accessCollides
  have htyp : (a.typ == b.typ) = (b.typ == a.typ) := by
    by_cases h : a.typ = b.typ
    · rw [h]
    · rw [beq_eq_false_iff_ne.mpr h, beq_eq_false_iff_ne.mpr (Ne.symm h)]
  rw [htyp, Bool.or_comm]

theorem conflicts_symm (d1 d2 : AccessDescriptor) : conflicts d1 d2 = conflicts d2 d1 := by
  rw [Bool.eq_iff_iff]
  simp only [conflicts, Bool.or_eq_true, List.any_eq_true]
  constructor <;> rintro (⟨x, hx, y, hy, hxy⟩ | ⟨x, hx, y, hy, hxy⟩)
  · exact Or.inl ⟨y, hy, x, hx, by rw [accessCollides_symm]; exact hxy⟩
  · exact Or.inr ⟨y, hy, x, hx, by rw [accessCollides_symm]; exact hxy⟩
  · exact Or.inl ⟨y, hy, x, hx, by rw [accessCollides_symm]; exact hxy⟩
  · exact Or.inr ⟨y, hy, x, hx, by rw [accessCollides_symm]; exact hxy⟩

theorem placeSystem_groupOk (groups : List (List AccessDescriptor)) (d : AccessDescriptor) :
    (∀ g ∈ groups, groupOk g) → ∀ g ∈ placeSystem groups d, groupOk g := by
  induction groups with
  | nil =>
    intro _ g hg
    simp only [placeSystem, List.mem_singleton] at hg
    subst hg
    exact List.pairwise_singleton _ _
  | cons g0 rest ih =>
    intro h g hg
    by_cases hc : (g0.any fun d2 => conflicts d2 d) = true
    · simp only [placeSystem, if_pos hc] at hg
      rcases List.mem_cons.mp hg with h0 | h0
      · exact h0 ▸ h g0 (List.mem_cons_self _ _)
      · exact ih (fun g' hg' => h g' (List.mem_cons_of_mem _ hg')) g h0
    · simp only [placeSystem, if_neg hc] at hg
      rcases List.mem_cons.mp hg with h0 | h0
      · subst h0
        have hok : groupOk g0 := h g0 (List.mem_cons_self _ _)
        have hnc : ∀ d2 ∈ g0, conflicts d2 d = false := by
          intro d2 hd2
          cases hcd : conflicts d2 d with
          | false => rfl
          | true => exact absurd (List.any_eq_true.mpr ⟨d2, hd2, hcd⟩) hc
        unfold groupOk
        rw [List.pairwise_append]
        refine ⟨hok, List.pairwise_singleton _ _, ?_⟩
        intro a ha b hb
        simp only [List.mem_singleton] at hb
        subst hb
        exact hnc a ha
      · exact h g (List.mem_cons_of_mem _ h0)

theorem buildPlan_groupOk (systems : List AccessDescriptor) :
    ∀ g ∈ buildPlan systems, groupOk g := by
  have main : ∀ (l : List AccessDescriptor) (acc : List (List AccessDescriptor)),
      (∀ g ∈ acc, groupOk g) → ∀ g ∈ l.foldl placeSystem acc, groupOk g := by
    intro l
    induction l with
    | nil => intro acc hacc g hg; exact hacc g hg
    | cons d rest ih =>
      intro acc hacc g hg
      exact ih (placeSystem acc d) (placeSystem_groupOk acc d hacc) g hg
  exact main systems [] (fun g hg => absurd hg (List.not_mem_nil g))

theorem placeSystem_flatten_perm (groups : List (List AccessDescriptor))
    (d : AccessDescriptor) :
    (placeSystem groups d).flatten.Perm (d :: groups.flatten) := by
  induction groups with
  | nil => simp [placeSystem]
  | cons g0 rest ih =>
    by_cases hc : (g0.any fun d2 => conflicts d2 d) = true
    · simp only [placeSystem, if_pos hc, List.flatten_cons]
      exact (List.Perm.append_left g0 ih).trans List.perm_middle
    · simp only [placeSystem, if_neg hc, List.flatten_cons]
      have h1 : (g0 ++ [d]) ++ rest.flatten = g0 ++ d :: rest.flatten := by simp
      rw [h1]
      exact List.perm_middle

theorem placeSystem_eq_appendAt (groups : List (List AccessDescriptor))
    (d : AccessDescriptor) :
    placeSystem groups d = appendAt groups (earliestFit groups d) d := by
  induction groups with
  | nil => rfl
  | cons g0 rest ih =>
    by_cases hc : (g0.any fun d2 => conflicts d2 d) = true
    · simp only [placeSystem, earliestFit, if_pos hc, appendAt, ih]
    · simp only [placeSystem, earliestFit, if_neg hc, appendAt]

theorem earliestFit_le (groups : List (List AccessDescriptor)) (d : AccessDescriptor) :
    earliestFit groups d ≤ groups.length := by
  induction groups with
  | nil => exact Nat.le_refl 0
  | cons g0 rest ih =>
    by_cases hc : (g0.any fun d2 => conflicts d2 d) = true
    · simp only [earliestFit, if_pos hc, List.length_cons]
      exact Nat.succ_le_succ ih
    · simp only [earliestFit, if_neg hc]
      exact Nat.zero_le _

theorem earliestFit_before (groups : List (List AccessDescriptor))
    (d : AccessDescriptor) :
    ∀ j, j < earliestFit groups d →
      ((groups.getD j []).any fun d2 => conflicts d2 d) = true := by
  induction groups with
  | nil => intro j hj; exact absurd hj (Nat.not_lt_zero j)
  | cons g0 rest ih =>
    intro j hj
    by_cases hc : (g0.any fun d2 => conflicts d2 d) = true
    · simp only [earliestFit, if_pos hc] at hj
      cases j with
      | zero => simpa [List.getD_cons_zero] using hc
      | succ j =>
        simpa [List.getD_cons_succ] using ih j (Nat.lt_of_succ_lt_succ hj)
    · simp only [earliestFit, if_neg hc] at hj
      exact absurd hj (Nat.not_lt_zero j)

theorem earliestFit_free (groups : List (List AccessDescriptor))
    (d : AccessDescriptor) :
    earliestFit groups d < groups.length →
      ((groups.getD (earliestFit groups d) []).any fun d2 => conflicts d2 d) = false := by
  induction groups with
  | nil => intro h; exact absurd h (Nat.not_lt_zero 0)
  | cons g0 rest ih =>
    intro h
    by_cases hc : (g0.any fun d2 => conflicts d2 d) = true
    · simp only [earliestFit, if_pos hc] at h ⊢
      simpa [List.getD_cons_succ] using ih (Nat.lt_of_succ_lt_succ h)
    · simp only [earliestFit, if_neg hc, List.getD_cons_zero]
      cases hb : (g0.any fun d2 => conflicts d2 d) with
      | false => rfl
      | true => exact absurd hb hc

theorem buildPlan_eq_buildPlanSpec (systems : List AccessDescriptor) :
    buildPlan systems = buildPlanSpec systems := by
  have main : ∀ (l : List AccessDescriptor) (acc : List (List AccessDescriptor)),
      l.foldl placeSystem acc = l.foldl (fun gs d => appendAt gs (earliestFit gs d) d) acc := by
    intro l
    induction l with
    | nil => intro acc; rfl
    | cons d rest ih =>
      intro acc
      simp only [List.foldl_cons, placeSystem_eq_appendAt, ih]
  exact main systems []

theorem buildPlan_flatten_perm (systems : List AccessDescriptor) :
    (buildPlan systems).flatten.Perm systems := by
  have main : ∀ (l : List AccessDescriptor) (acc : List (List AccessDescriptor)),
      ((l.foldl placeSystem acc).flatten).Perm (acc.flatten ++ l) := by
    intro l
    induction l with
    | nil => intro acc; simp
    | cons d rest ih =>
      intro acc
      have h1 := ih (placeSystem acc d)
      have h2 : ((placeSystem acc d).flatten ++ rest).Perm ((d :: acc.flatten) ++ rest) :=
        (placeSystem_flatten_perm acc d).append_right rest
      have h4 : (acc.flatten ++ d :: rest).Perm (d :: (acc.flatten ++ rest)) :=
        List.perm_middle
      exact (h1.trans h2).trans h4.symm
  simpa using main systems []

theorem isValid_facts {w : World α} {e : Entity} (h : w.isValid e = true) :
    e.idx < w.slots.length ∧ w.slotAlive e.idx = true ∧ w.slotGen e.idx = e.gen := by
  unfold World.isValid at h
  cases hq : w.slots[e.idx]? with
  | none => rw [hq] at h; exact absurd h (by simp)
  | some s =>
    rw [hq] at h
    simp only [Bool.and_eq_true, beq_iff_eq] at h
    have hlen : e.idx < w.slots.length := by
      by_contra hge
      rw [List.getElem?_eq_none (Nat.le_of_not_lt hge)] at hq
      exact Option.noConfusion hq
    refine ⟨hlen, ?_, ?_⟩
    · unfold World.slotAlive
      rw [List.getD_eq_getElem?_getD, hq]
      exact h.1
    · unfold World.slotGen
      rw [List.getD_eq_getElem?_getD, hq]
      exact h.2

theorem isValid_of_facts {w : World α} {e : Entity}
    (hlen : e.idx < w.slots.length) (ha : w.slotAlive e.idx = true)
    (hg : w.slotGen e.idx = e.gen) : w.isValid e = true := by
  unfold World.isValid
  cases hq : w.slots[e.idx]? with
  | none =>
    rw [List.getElem?_eq_getElem hlen] at hq
    exact Option.noConfusion hq
  | some s =>
    unfold World.slotAlive at ha
    unfold World.slotGen at hg
    simp only [List.getD_eq_getElem?_getD, hq, Option.getD_some] at ha hg
    simp [ha, hg]

theorem despawn_slots_of_valid {w : World α} {e : Entity} (h : w.isValid e = true) :
    (w.despawn e).slots = w.slots.set e.idx ⟨e.gen + 1, false⟩ := by
  unfold World.despawn
  rw [if_pos h]

theorem despawn_of_invalid {w : World α} {e : Entity} (h : w.isValid e = false) :
    w.despawn e = w := by
  unfold World.despawn
  rw [if_neg (by simp [h])]

theorem despawn_staleFor {w : World α} {e : Entity} (h : w.isValid e = true) :
    (w.despawn e).staleFor e := by
  obtain ⟨hlen, _, hg⟩ := isValid_facts h
  refine ⟨?_, ?_⟩
  · rw [despawn_slots_of_valid h]
    simpa [List.length_set] using hlen
  · unfold World.slotGen
    rw [despawn_slots_of_valid h, List.getD_eq_getElem?_getD,
      List.getElem?_set_self hlen]
    simp

theorem staleFor_isValid {w : World α} {e : Entity} (h : w.staleFor e) :
    w.isValid e = false := by
  obtain ⟨hlen, hg⟩ := h
  unfold World.isValid
  rw [List.getElem?_eq_getElem hlen]
  unfold World.slotGen at hg
  rw [List.getD_eq_getElem?_getD, List.getElem?_eq_getElem hlen] at hg
  simp only [Option.getD_some] at hg
  have : (w.slots[e.idx].gen == e.gen) = false :=
    beq_eq_false_iff_ne.mpr (Nat.ne_of_gt hg)
  simp [this]

theorem applyCmd_len_mono (c : Cmd α) (w : World α) :
    w.slots.length ≤ (w.applyCmd c).slots.length := by
  cases c with
  | spawnCmd =>
    show w.slots.length ≤ w.spawn.1.slots.length
    unfold World.spawn
    cases w.freeList with
    | nil => simp
    | cons i0 rest0 => simp
  | despawnCmd e =>
    show w.slots.length ≤ (w.despawn e).slots.length
    unfold World.despawn
    by_cases h : w.isValid e = true
    · rw [if_pos h]; simp
    · rw [if_neg h]
  | insertCmd t e v =>
    show w.slots.length ≤ (w.insertComp t e v).slots.length
    unfold World.insertComp
    by_cases h : w.isValid e = true
    · rw [if_pos h]
    · rw [if_neg h]
  | removeCmd t e =>
    show w.slots.length ≤ (w.removeComp t e).slots.length
    unfold World.removeComp
    by_cases h : w.isValid e = true
    · rw [if_pos h]
    · rw [if_neg h]

theorem spawn_slotGen (w : World α) (i : Nat) :
    w.spawn.1.slotGen i = w.slotGen i := by
  unfold World.spawn World.slotGen
  cases w.freeList with
  | nil =>
    simp only [List.getD_eq_getElem?_getD, List.getElem?_append]
    by_cases hi : i < w.slots.length
    · rw [if_pos hi]
    · rw [if_neg hi, List.getElem?_eq_none (Nat.le_of_not_lt hi)]
      cases hj : i - w.slots.length with
      | zero => simp
      | succ j => simp
  | cons i0 rest0 =>
    simp only [List.getD_eq_getElem?_getD, List.getElem?_set]
    by_cases hij : i0 = i
    · subst hij
      by_cases hlen : i0 < w.slots.length
      · simp [hlen, List.getD_eq_getElem?_getD]
      · simp [hlen, List.getElem?_eq_none (Nat.le_of_not_lt hlen)]
    · simp [hij]

theorem applyCmd_gen_mono (c : Cmd α) (w : World α) (i : Nat) :
    w.slotGen i ≤ (w.applyCmd c).slotGen i := by
  cases c with
  | spawnCmd =>
    show w.slotGen i ≤ w.spawn.1.slotGen i
    rw [spawn_slotGen]
  | despawnCmd e =>
    show w.slotGen i ≤ (w.despawn e).slotGen i
    unfold World.despawn
    by_cases h : w.isValid e = true
    · rw [if_pos h]
      obtain ⟨hlen, _, hg⟩ := isValid_facts h
      unfold World.slotGen
      simp only [List.getD_eq_getElem?_getD, List.getElem?_set]
      by_cases hij : e.idx = i
      · rw [if_pos hij, if_pos (hij ▸ hlen)]
        subst hij
        unfold World.slotGen at hg
        rw [List.getD_eq_getElem?_getD] at hg
        rw [hg]
        simp
      · rw [if_neg hij]
    · rw [if_neg (by simp [h])]
  | insertCmd t e v =>
    show w.slotGen i ≤ (w.insertComp t e v).slotGen i
    unfold World.insertComp
    by_cases h : w.isValid e = true
    · rw [if_pos h]
      exact Nat.le_refl _
    · rw [if_neg h]
  | removeCmd t e =>
    show w.slotGen i ≤ (w.removeComp t e).slotGen i
    unfold World.removeComp
    by_cases h : w.isValid e = true
    · rw [if_pos h]
      exact Nat.le_refl _
    · rw [if_neg h]

theorem staleFor_applyCmd (c : Cmd α) {w : World α} {e : Entity}
    (h : w.staleFor e) : (w.applyCmd c).staleFor e :=
  ⟨Nat.lt_of_lt_of_le h.1 (applyCmd_len_mono c w),
   Nat.lt_of_lt_of_le h.2 (applyCmd_gen_mono c w e.idx)⟩

theorem staleFor_applyCmds (cmds : List (Cmd α)) {w : World α} {e : Entity}
    (h : w.staleFor e) : (w.applyCmds cmds).staleFor e := by
  induction cmds generalizing w with
  | nil => exact h
  | cons c rest ih => exact ih (staleFor_applyCmd c h)

theorem slotAlive_congr {w1 w2 : World α} (h : w1.slots = w2.slots) (i : Nat) :
    w1.slotAlive i = w2.slotAlive i := by
  unfold World.slotAlive
  rw [h]

theorem slotGen_congr {w1 w2 : World α} (h : w1.slots = w2.slots) (i : Nat) :
    w1.slotGen i = w2.slotGen i := by
  unfold World.slotGen
  rw [h]

theorem isValid_false_of_not_true {w : World α} {e : Entity}
    (h : ¬ w.isValid e = true) : w.isValid e = false := by
  cases hb : w.isValid e with
  | false => rfl
  | true => exact absurd hb h

theorem insertComp_slots (w : World α) (t : Nat) (e : Entity) (v : α) :
    (w.insertComp t e v).slots = w.slots := by
  unfold World.insertComp
  split <;> rfl

theorem removeComp_slots (w : World α) (t : Nat) (e : Entity) :
    (w.removeComp t e).slots = w.slots := by
  unfold World.removeComp
  split <;> rfl

theorem spawn_slotAlive_of_alive {w : World α} (hwf : w.WF) {i : Nat}
    (ha : w.slotAlive i = true) : w.spawn.1.slotAlive i = true := by
  unfold World.slotAlive at ha ⊢
  unfold World.spawn
  cases hfl : w.freeList with
  | nil =>
    simp only [List.getD_eq_getElem?_getD, List.getElem?_append] at ha ⊢
    have hi : i < w.slots.length := by
      by_contra hge
      rw [List.getElem?_eq_none (Nat.le_of_not_lt hge)] at ha
      exact Bool.noConfusion ha
    rw [if_pos hi]
    exact ha
  | cons i0 rest0 =>
    rw [List.getD_eq_getElem?_getD] at ha
    have hne : i0 ≠ i := by
      intro heq
      have hdead := (hwf.2.1 i0 (by rw [hfl]; exact List.mem_cons_self _ _)).2
      unfold World.slotAlive at hdead
      rw [List.getD_eq_getElem?_getD, heq] at hdead
      rw [ha] at hdead
      exact Bool.noConfusion hdead
    simp only [List.getD_eq_getElem?_getD, List.getElem?_set_ne hne]
    exact ha

theorem slot_evolution (c : Cmd α) {w : World α} (hwf : w.WF) {i : Nat} :
    (w.slotAlive i = true →
      ((w.applyCmd c).slotAlive i = true ∧ (w.applyCmd c).slotGen i = w.slotGen i) ∨
      ((w.applyCmd c).slotAlive i = false ∧ w.slotGen i < (w.applyCmd c).slotGen i)) ∧
    (w.slotAlive i = false → (w.applyCmd c).slotGen i = w.slotGen i) := by
  cases c with
  | spawnCmd =>
    exact ⟨fun ha => Or.inl ⟨spawn_slotAlive_of_alive hwf ha, spawn_slotGen w i⟩,
      fun _ => spawn_slotGen w i⟩
  | despawnCmd e =>
    show (w.slotAlive i = true →
      ((w.despawn e).slotAlive i = true ∧ (w.despawn e).slotGen i = w.slotGen i) ∨
      ((w.despawn e).slotAlive i = false ∧ w.slotGen i < (w.despawn e).slotGen i)) ∧
      (w.slotAlive i = false → (w.despawn e).slotGen i = w.slotGen i)
    by_cases hv : w.isValid e = true
    · obtain ⟨hlen, halive, hg⟩ := isValid_facts hv
      by_cases hie : e.idx = i
      · subst hie
        have h1 : (w.despawn e).slotAlive e.idx = false := by
          unfold World.slotAlive
          rw [despawn_slots_of_valid hv, List.getD_eq_getElem?_getD,
            List.getElem?_set_self hlen]
          rfl
        have h2 : (w.despawn e).slotGen e.idx = e.gen + 1 := by
          unfold World.slotGen
          rw [despawn_slots_of_valid hv, List.getD_eq_getElem?_getD,
            List.getElem?_set_self hlen]
          rfl
        refine ⟨fun _ => Or.inr ⟨h1, ?_⟩, fun hd => absurd halive (by simp [hd])⟩
        rw [h2, hg]
        exact Nat.lt_succ_self _
      · have hsA : (w.despawn e).slotAlive i = w.slotAlive i := by
          unfold World.slotAlive
          rw [despawn_slots_of_valid hv, List.getD_eq_getElem?_getD,
            List.getElem?_set_ne hie, ← List.getD_eq_getElem?_getD]
        have hsG : (w.despawn e).slotGen i = w.slotGen i := by
          unfold World.slotGen
          rw [despawn_slots_of_valid hv, List.getD_eq_getElem?_getD,
            List.getElem?_set_ne hie, ← List.getD_eq_getElem?_getD]
        exact ⟨fun ha => Or.inl ⟨by rw [hsA]; exact ha, hsG⟩, fun _ => hsG⟩
    · have hno : w.despawn e = w := despawn_of_invalid (isValid_false_of_not_true hv)
      rw [hno]
      exact ⟨fun ha => Or.inl ⟨ha, rfl⟩, fun _ => rfl⟩
  | insertCmd t e v =>
    have hsA := slotAlive_congr (insertComp_slots w t e v) i
    have hsG := slotGen_congr (insertComp_slots w t e v) i
    exact ⟨fun ha => Or.inl ⟨by rw [show (w.applyCmd (Cmd.insertCmd t e v)).slotAlive i = w.slotAlive i from hsA]; exact ha, hsG⟩,
      fun _ => hsG⟩
  | removeCmd t e =>
    have hsA := slotAlive_congr (removeComp_slots w t e) i
    have hsG := slotGen_congr (removeComp_slots w t e) i
    exact ⟨fun ha => Or.inl ⟨by rw [show (w.applyCmd (Cmd.removeCmd t e)).slotAlive i = w.slotAlive i from hsA]; exact ha, hsG⟩,
      fun _ => hsG⟩

theorem WF_spawn {w : World α} (hwf : w.WF) : w.spawn.1.WF := by
  obtain ⟨hnd, hmem, hco⟩ := hwf
  unfold World.spawn
  cases hfl : w.freeList with
  | nil =>
    refine ⟨List.nodup_nil, ?_, ?_⟩
    · intro i hi
      exact absurd hi (List.not_mem_nil i)
    · intro i hlen hdead
      unfold World.slotAlive at hdead
      rw [List.getD_eq_getElem?_getD, List.getElem?_append] at hdead
      by_cases hi : i < w.slots.length
      · rw [if_pos hi] at hdead
        have : w.slotAlive i = false := by
          unfold World.slotAlive
          rw [List.getD_eq_getElem?_getD]
          exact hdead
        exact absurd (hco i hi this) (by rw [hfl]; exact List.not_mem_nil i)
      · exfalso
        have hlen' : i < w.slots.length + 1 := by simpa using hlen
        have hieq : i = w.slots.length :=
          Nat.le_antisymm (Nat.lt_succ_iff.mp hlen') (Nat.le_of_not_lt hi)
        rw [if_neg hi, hieq, Nat.sub_self] at hdead
        simp at hdead
  | cons i0 rest0 =>
    rw [hfl] at hnd hmem hco
    refine ⟨(List.nodup_cons.mp hnd).2, ?_, ?_⟩
    · intro i hi
      obtain ⟨hilen, hidead⟩ := hmem i (List.mem_cons_of_mem _ hi)
      have hne : i0 ≠ i := fun h => (List.nodup_cons.mp hnd).1 (h ▸ hi)
      refine ⟨by rw [List.length_set]; exact hilen, ?_⟩
      unfold World.slotAlive at hidead ⊢
      rw [List.getD_eq_getElem?_getD] at hidead ⊢
      rw [List.getElem?_set_ne hne]
      exact hidead
    · intro i hlen hdead
      rw [List.length_set] at hlen
      by_cases hie : i0 = i
      · exfalso
        unfold World.slotAlive at hdead
        rw [List.getD_eq_getElem?_getD, hie,
          List.getElem?_set_self (hie ▸ (hmem i0 (List.mem_cons_self _ _)).1)] at hdead
        simp at hdead
      · have hdw : w.slotAlive i = false := by
          unfold World.slotAlive at hdead ⊢
          rw [List.getD_eq_getElem?_getD] at hdead ⊢
          rw [List.getElem?_set_ne hie] at hdead
          exact hdead
        rcases List.mem_cons.mp (hco i hlen hdw) with h | h
        · exact absurd h.symm hie
        · exact h

theorem WF_despawn {w : World α} (hwf : w.WF) (e : Entity) : (w.despawn e).WF := by
  by_cases hv : w.isValid e = true
  · obtain ⟨hlen, halive, hg⟩ := isValid_facts hv
    obtain ⟨hnd, hmem, hco⟩ := hwf
    have hnotin : e.idx ∉ w.freeList := by
      intro h
      have := (hmem e.idx h).2
      rw [halive] at this
      exact Bool.noConfusion this
    unfold World.despawn
    rw [if_pos hv]
    refine ⟨?_, ?_, ?_⟩
    · simp [List.nodup_append, hnd, hnotin]
    · intro i hi
      rcases List.mem_append.mp hi with h | h
      · obtain ⟨hil, hid⟩ := hmem i h
        have hne : e.idx ≠ i := fun heq => hnotin (heq ▸ h)
        refine ⟨by rw [List.length_set]; exact hil, ?_⟩
        unfold World.slotAlive at hid ⊢
        rw [List.getD_eq_getElem?_getD] at hid ⊢
        rw [List.getElem?_set_ne hne]
        exact hid
      · have heq : i = e.idx := by simpa using h
        subst heq
        refine ⟨by rw [List.length_set]; exact hlen, ?_⟩
        unfold World.slotAlive
        rw [List.getD_eq_getElem?_getD, List.getElem?_set_self hlen]
        rfl
    · intro i hl hd
      rw [List.length_set] at hl
      by_cases hie : e.idx = i
      · exact List.mem_append.mpr (Or.inr (by simp [hie]))
      · have hdw : w.slotAlive i = false := by
          unfold World.slotAlive at hd ⊢
          rw [List.getD_eq_getElem?_getD] at hd ⊢
          rw [List.getElem?_set_ne hie] at hd
          exact hd
        exact List.mem_append.mpr (Or.inl (hco i hl hdw))
  · rw [despawn_of_invalid (isValid_false_of_not_true hv)]
    exact hwf

theorem WF_applyCmd (c : Cmd α) {w : World α} (hwf : w.WF) : (w.applyCmd c).WF := by
  cases c with
  | spawnCmd => exact WF_spawn hwf
  | despawnCmd e => exact WF_despawn hwf e
  | insertCmd t e v =>
    show (w.insertComp t e v).WF
    unfold World.insertComp
    split
    · exact hwf
    · exact hwf
  | removeCmd t e =>
    show (w.removeComp t e).WF
    unfold World.removeComp
    split
    · exact hwf
    · exact hwf

theorem spawn_result {w : World α} (hwf : w.WF) :
    w.spawn.2.idx < w.spawn.1.slots.length ∧
    w.spawn.1.slotAlive w.spawn.2.idx = true ∧
    w.spawn.1.slotGen w.spawn.2.idx = w.spawn.2.gen := by
  unfold World.spawn
  cases hfl : w.freeList with
  | nil =>
    refine ⟨by simp, ?_, ?_⟩
    · unfold World.slotAlive
      rw [List.getD_eq_getElem?_getD, List.getElem?_concat_length]
      rfl
    · unfold World.slotGen
      rw [List.getD_eq_getElem?_getD, List.getElem?_concat_length]
      rfl
  | cons i0 rest0 =>
    have hl : i0 < w.slots.length :=
      (hwf.2.1 i0 (by rw [hfl]; exact List.mem_cons_self _ _)).1
    refine ⟨by rw [List.length_set]; exact hl, ?_, ?_⟩
    · unfold World.slotAlive
      rw [List.getD_eq_getElem?_getD, List.getElem?_set_self hl]
      rfl
    · unfold World.slotGen
      rw [List.getD_eq_getElem?_getD, List.getElem?_set_self hl]
      rfl

theorem dominates_transfer (c : Cmd α) {w : World α} (hwf : w.WF) (h : Entity)
    (H1 : (w.applyCmd c).slotAlive h.idx = true → (w.applyCmd c).slotGen h.idx < h.gen)
    (H2 : (w.applyCmd c).slotAlive h.idx = false → (w.applyCmd c).slotGen h.idx ≤ h.gen) :
    (w.slotAlive h.idx = true → w.slotGen h.idx < h.gen) ∧
    (w.slotAlive h.idx = false → w.slotGen h.idx ≤ h.gen) := by
  obtain ⟨halive, hdead⟩ := slot_evolution c hwf (i := h.idx)
  constructor
  · intro ha
    rcases halive ha with ⟨h1, h2⟩ | ⟨h1, h2⟩
    · rw [← h2]
      exact H1 h1
    · exact Nat.lt_of_lt_of_le h2 (H2 h1)
  · intro hd
    cases hw1 : (w.applyCmd c).slotAlive h.idx with
    | false =>
      rw [← hdead hd]
      exact H2 hw1
    | true =>
      have := H1 hw1
      rw [hdead hd] at this
      exact Nat.le_of_lt this

theorem trace_dominates (cmds : List (Cmd α)) (w : World α) (hwf : w.WF) :
    ∀ h ∈ (runTrace w cmds).2,
      (w.slotAlive h.idx = true → w.slotGen h.idx < h.gen) ∧
      (w.slotAlive h.idx = false → w.slotGen h.idx ≤ h.gen) := by
  induction cmds generalizing w with
  | nil =>
    intro h hh
    exact absurd hh (List.not_mem_nil h)
  | cons c rest ih =>
    intro h hh
    cases c with
    | spawnCmd =>
      have hh' : h = w.spawn.2 ∨ h ∈ (runTrace w.spawn.1 rest).2 := by
        simpa [runTrace] using List.mem_cons.mp hh
      rcases hh' with heq | htail
      · subst heq
        obtain ⟨_, halive, hgen⟩ := spawn_result hwf
        constructor
        · intro ha
          cases hfl : w.freeList with
          | nil =>
            exfalso
            have : w.spawn.2.idx = w.slots.length := by
              unfold World.spawn
              rw [hfl]
            unfold World.slotAlive at ha
            rw [this, List.getD_eq_getElem?_getD,
              List.getElem?_eq_none (Nat.le_refl _)] at ha
            exact Bool.noConfusion ha
          | cons i0 rest0 =>
            exfalso
            have hidx : w.spawn.2.idx = i0 := by
              unfold World.spawn
              rw [hfl]
            have hdead := (hwf.2.1 i0 (by rw [hfl]; exact List.mem_cons_self _ _)).2
            rw [hidx] at ha
            rw [ha] at hdead
            exact Bool.noConfusion hdead
        · intro _
          cases hfl : w.freeList with
          | nil =>
            have hidx : w.spawn.2.idx = w.slots.length := by
              unfold World.spawn
              rw [hfl]
            have hgen0 : w.spawn.2.gen = 0 := by
              unfold World.spawn
              rw [hfl]
            have : w.slotGen w.spawn.2.idx = 0 := by
              unfold World.slotGen
              rw [hidx, List.getD_eq_getElem?_getD,
                List.getElem?_eq_none (Nat.le_refl _)]
              rfl
            rw [this, hgen0]
          | cons i0 rest0 =>
            have hidx : w.spawn.2.idx = i0 := by
              unfold World.spawn
              rw [hfl]
            have hgeq : w.spawn.2.gen = w.slotGen i0 := by
              unfold World.spawn World.slotGen
              rw [hfl]
            rw [hidx, hgeq]
      · have := ih w.spawn.1 (WF_spawn hwf) h htail
        exact dominates_transfer Cmd.spawnCmd hwf h this.1 this.2
    | despawnCmd e =>
      have htail : h ∈ (runTrace (w.applyCmd (Cmd.despawnCmd e)) rest).2 := hh
      have := ih _ (WF_applyCmd (Cmd.despawnCmd e) hwf) h htail
      exact dominates_transfer (Cmd.despawnCmd e) hwf h this.1 this.2
    | insertCmd t e v =>
      have htail : h ∈ (runTrace (w.applyCmd (Cmd.insertCmd t e v)) rest).2 := hh
      have := ih _ (WF_applyCmd (Cmd.insertCmd t e v) hwf) h htail
      exact dominates_transfer (Cmd.insertCmd t e v) hwf h this.1 this.2
    | removeCmd t e =>
      have htail : h ∈ (runTrace (w.applyCmd (Cmd.removeCmd t e)) rest).2 := hh
      have := ih _ (WF_applyCmd (Cmd.removeCmd t e) hwf) h htail
      exact dominates_transfer (Cmd.removeCmd t e) hwf h this.1 this.2

theorem trace_pairwise (cmds : List (Cmd α)) (w : World α) (hwf : w.WF) :
    (runTrace w cmds).2.Pairwise (fun h1 h2 => h1.idx = h2.idx → h1.gen < h2.gen) := by
  induction cmds generalizing w with
  | nil => simp [runTrace]
  | cons c rest ih =>
    cases c with
    | spawnCmd =>
      show (w.spawn.2 :: (runTrace w.spawn.1 rest).2).Pairwise _
      refine List.Pairwise.cons ?_ (ih w.spawn.1 (WF_spawn hwf))
      intro h hh hidx
      obtain ⟨hlt, halive, hgen⟩ := spawn_result hwf
      have hdom := (trace_dominates rest w.spawn.1 (WF_spawn hwf) h hh).1
        (by rw [← hidx]; exact halive)
      rw [← hidx, hgen] at hdom
      exact hdom
    | despawnCmd e => exact ih _ (WF_applyCmd (Cmd.despawnCmd e) hwf)
    | insertCmd t e v => exact ih _ (WF_applyCmd (Cmd.insertCmd t e v) hwf)
    | removeCmd t e => exact ih _ (WF_applyCmd (Cmd.removeCmd t e) hwf)

theorem isValid_congr {w1 w2 : World α} (h : w1.slots = w2.slots) (e : Entity) :
    w1.isValid e = w2.isValid e := by
  unfold World.isValid
  rw [h]

theorem foldl_applyWrite_slots (ws : List (Nat × Nat × α)) (w : World α) :
    (ws.foldl World.applyWrite w).slots = w.slots := by
  induction ws generalizing w with
  | nil => rfl
  | cons wr rest ih => exact ih (w.applyWrite wr)

theorem foldl_applyResWrite_slots (ws : List (Nat × α)) (w : World α) :
    (ws.foldl World.applyResWrite w).slots = w.slots := by
  induction ws generalizing w with
  | nil => rfl
  | cons wr rest ih => exact ih (w.applyResWrite wr)

theorem foldl_applyWrite_freeList (ws : List (Nat × Nat × α)) (w : World α) :
    (ws.foldl World.applyWrite w).freeList = w.freeList := by
  induction ws generalizing w with
  | nil => rfl
  | cons wr rest ih => exact ih (w.applyWrite wr)

theorem foldl_applyWrite_resources (ws : List (Nat × Nat × α)) (w : World α) :
    (ws.foldl World.applyWrite w).resources = w.resources := by
  induction ws generalizing w with
  | nil => rfl
  | cons wr rest ih => exact ih (w.applyWrite wr)

theorem spawn_slotAlive_mono {w : World α} {i : Nat}
    (ha : w.slotAlive i = true) : w.spawn.1.slotAlive i = true := by
  unfold World.slotAlive at ha ⊢
  unfold World.spawn
  cases hfl : w.freeList with
  | nil =>
    simp only [List.getD_eq_getElem?_getD, List.getElem?_append] at ha ⊢
    have hi : i < w.slots.length := by
      by_contra hge
      rw [List.getElem?_eq_none (Nat.le_of_not_lt hge)] at ha
      exact Bool.noConfusion ha
    rw [if_pos hi]
    exact ha
  | cons i0 rest0 =>
    simp only [List.getD_eq_getElem?_getD, List.getElem?_set] at ha ⊢
    by_cases hij : i0 = i
    · rw [if_pos hij]
      by_cases hlen : i0 < w.slots.length
      · rw [if_pos hlen]
        rfl
      · exfalso
        rw [hij] at hlen
        rw [List.getElem?_eq_none (Nat.le_of_not_lt hlen)] at ha
        exact Bool.noConfusion ha
    · rw [if_neg hij]
      exact ha

theorem valid_or_stale (c : Cmd α) {w : World α} {e : Entity}
    (hv : w.isValid e = true) :
    (w.applyCmd c).isValid e = true ∨ (w.applyCmd c).staleFor e := by
  obtain ⟨hlen, halive, hg⟩ := isValid_facts hv
  cases c with
  | spawnCmd =>
    left
    show w.spawn.1.isValid e = true
    refine isValid_of_facts ?_ (spawn_slotAlive_mono halive) (by rw [spawn_slotGen, hg])
    have := applyCmd_len_mono (Cmd.spawnCmd : Cmd α) w
    exact Nat.lt_of_lt_of_le hlen this
  | despawnCmd f =>
    show (w.despawn f).isValid e = true ∨ (w.despawn f).staleFor e
    by_cases hvf : w.isValid f = true
    · obtain ⟨hflen, hfalive, hfg⟩ := isValid_facts hvf
      by_cases hie : f.idx = e.idx
      · right
        have hfe : f.gen = e.gen := by rw [← hfg, hie, hg]
        refine ⟨?_, ?_⟩
        · rw [despawn_slots_of_valid hvf, List.length_set]
          exact hlen
        · unfold World.slotGen
          rw [despawn_slots_of_valid hvf, ← hie, List.getD_eq_getElem?_getD,
            List.getElem?_set_self hflen]
          simp [hfe]
      · left
        have hsl := despawn_slots_of_valid hvf (e := f)
        refine isValid_of_facts ?_ ?_ ?_
        · rw [hsl, List.length_set]
          exact hlen
        · unfold World.slotAlive
          rw [hsl, List.getD_eq_getElem?_getD, List.getElem?_set_ne hie]
          unfold World.slotAlive at halive
          rw [List.getD_eq_getElem?_getD] at halive
          exact halive
        · unfold World.slotGen
          rw [hsl, List.getD_eq_getElem?_getD, List.getElem?_set_ne hie]
          unfold World.slotGen at hg
          rw [List.getD_eq_getElem?_getD] at hg
          exact hg
    · left
      rw [despawn_of_invalid (isValid_false_of_not_true hvf)]
      exact hv
  | insertCmd t f v =>
    left
    rw [show (w.applyCmd (Cmd.insertCmd t f v)).isValid e = w.isValid e from
      isValid_congr (insertComp_slots w t f v) e]
    exact hv
  | removeCmd t f =>
    left
    rw [show (w.applyCmd (Cmd.removeCmd t f)).isValid e = w.isValid e from
      isValid_congr (removeComp_slots w t f) e]
    exact hv

theorem applyCmds_despawn_invalid (cmds : List (Cmd α)) {w : World α} {e : Entity}
    (hv : w.isValid e = true) (hmem : Cmd.despawnCmd e ∈ cmds) :
    (w.applyCmds cmds).isValid e = false := by
  induction cmds generalizing w with
  | nil => exact absurd hmem (List.not_mem_nil _)
  | cons c rest ih =>
    show ((w.applyCmd c).applyCmds rest).isValid e = false
    by_cases hc : c = Cmd.despawnCmd e
    · subst hc
      exact staleFor_isValid (staleFor_applyCmds rest (despawn_staleFor hv))
    · have hmem' : Cmd.despawnCmd e ∈ rest := by
        rcases List.mem_cons.mp hmem with h | h
        · exact absurd h.symm hc
        · exact h
      rcases valid_or_stale c hv with hval | hstale
      · exact ih hval hmem'
      · exact staleFor_isValid (staleFor_applyCmds rest hstale)

theorem groupStart_cons (w : World α) (g : List (Sys α))
    (plan : List (List (Sys α))) (k : Nat) :
    groupStart w (g :: plan) (k + 1) = groupStart (stepGroup w g) plan k := by
  induction k with
  | zero => rfl
  | succ k ih =>
    show stepGroup (groupStart w (g :: plan) (k + 1)) ((g :: plan).getD (k + 1) []) =
      stepGroup (groupStart (stepGroup w g) plan k) (plan.getD k [])
    rw [ih, List.getD_cons_succ]

theorem runFrame_eq_groupStart (w : World α) (plan : List (List (Sys α))) :
    runFrame w plan = groupStart w plan plan.length := by
  induction plan generalizing w with
  | nil => rfl
  | cons g rest ih =>
    show runFrame (stepGroup w g) rest = groupStart w (g :: rest) (rest.length + 1)
    rw [groupStart_cons]
    exact ih (stepGroup w g)

theorem groupStart_succ_eq (w : World α) (plan : List (List (Sys α))) (k : Nat) :
    groupStart w plan (k + 1) =
      (groupCmds w plan k).foldl World.applyCmd
        ((groupResWrites w plan k).foldl World.applyResWrite
          ((groupWrites w plan k).foldl World.applyWrite (groupStart w plan k))) := by
  show stepGroup (groupStart w plan k) (plan.getD k []) = _
  unfold stepGroup groupCmds groupWrites groupResWrites
  simp only [List.map_map]
  rfl

/-- C1: for every set of registered systems, the execution plan built by
the Scheduler never puts two conflicting systems in the same Execution
Group — every group is pairwise conflict-free (in both directions) — and
the plan is a partition of exactly the registered systems. -/
theorem C1_no_conflicting_pair_in_any_group (systems : List AccessDescriptor) :
    (∀ g ∈ buildPlan systems,
      g.Pairwise (fun a b => conflicts a b = false ∧ conflicts b a = false)) ∧
    (buildPlan systems).flatten.Perm systems := by
  refine ⟨fun g hg => ?_, buildPlan_flatten_perm systems⟩
  exact (buildPlan_groupOk systems g hg).imp
    (fun h => ⟨h, by rw [conflicts_symm]; exact h⟩)

/-- C2: the Scheduler's plan-building operation is exactly the greedy
first-fit coloring — each system goes into the earliest existing group
with no conflicting member (`earliestFit` is sound and minimal), a new
group is opened when none fits, and the construction is a function of
the registration order alone, so building twice from the same systems
yields the identical ordered partition. -/
theorem C2_build_is_greedy_first_fit (systems others : List AccessDescriptor)
    (groups : List (List AccessDescriptor)) (d : AccessDescriptor) :
    buildPlan systems = buildPlanSpec systems ∧
    placeSystem groups d = appendAt groups (earliestFit groups d) d ∧
    earliestFit groups d ≤ groups.length ∧
    (∀ j, j < earliestFit groups d →
      ((groups.getD j []).any fun d2 => conflicts d2 d) = true) ∧
    (earliestFit groups d < groups.length →
      ((groups.getD (earliestFit groups d) []).any fun d2 => conflicts d2 d) = false) ∧
    (systems = others → buildPlan systems = buildPlan others) :=
  ⟨buildPlan_eq_buildPlanSpec systems, placeSystem_eq_appendAt groups d,
   earliestFit_le groups d, earliestFit_before groups d, earliestFit_free groups d,
   fun h => by rw [h]⟩

/-- C3: over any well-formed World and any sequence of structural
operations, the handles returned by spawn are such that two handles at
the same index have strictly increasing generations (in order of
return), and in particular no two spawned handles — hence no two live
entities — ever share the same (index, generation) pair. -/
theorem C3_spawned_handles_never_collide (cmds : List (Cmd α)) (w : World α)
    (hwf : w.WF) :
    (runTrace w cmds).2.Pairwise (fun h1 h2 => h1.idx = h2.idx → h1.gen < h2.gen) ∧
    (runTrace w cmds).2.Nodup := by
  refine ⟨trace_pairwise cmds w hwf, ?_⟩
  exact (trace_pairwise cmds w hwf).imp (fun hr hab => by
    subst hab
    exact Nat.lt_irrefl _ (hr rfl))

/-- Witness for C3: spawn, despawn the returned handle, spawn again from
the empty World — the reused index 0 comes back at generation 1. -/
theorem C3_spawned_handles_never_collide_witness :
    (World.empty : World Nat).WF ∧
    ((runTrace (World.empty : World Nat)
        [Cmd.spawnCmd, Cmd.despawnCmd ⟨0, 0⟩, Cmd.spawnCmd]).2.Pairwise
        (fun h1 h2 => h1.idx = h2.idx → h1.gen < h2.gen) ∧
      (runTrace (World.empty : World Nat)
        [Cmd.spawnCmd, Cmd.despawnCmd ⟨0, 0⟩, Cmd.spawnCmd]).2.Nodup) :=
  ⟨⟨List.nodup_nil, fun i hi => absurd hi (List.not_mem_nil i),
      fun i hl _ => absurd hl (Nat.not_lt_zero i)⟩,
   C3_spawned_handles_never_collide _ _
     ⟨List.nodup_nil, fun i hi => absurd hi (List.not_mem_nil i),
      fun i hl _ => absurd hl (Nat.not_lt_zero i)⟩⟩

/-- C4: after `despawn(e)` the lookup `get t e` is empty for every
component type `t`; if `e` was valid, then after the despawn every
further structural operation still resolves `e` as invalid (never a
crash — validity is a total Boolean check); and despawning an
already-invalid handle is a no-op. -/
theorem C4_despawn_clears_and_invalidates (w : World α) (e : Entity) (t : Nat)
    (cmds : List (Cmd α)) :
    (w.despawn e).getComp t e = none ∧
    (w.isValid e = true → ((w.despawn e).applyCmds cmds).isValid e = false) ∧
    (w.isValid e = false → w.despawn e = w) := by
  refine ⟨?_, ?_, fun h => despawn_of_invalid h⟩
  · by_cases hv : w.isValid e = true
    · have hinv := staleFor_isValid (despawn_staleFor hv)
      unfold World.getComp
      rw [hinv]
      simp
    · have hinv := isValid_false_of_not_true hv
      rw [despawn_of_invalid hinv]
      unfold World.getComp
      rw [hinv]
      simp
  · intro hv
    exact staleFor_isValid (staleFor_applyCmds cmds (despawn_staleFor hv))

/-- Witness for C4 at a concrete input: despawn the freshly spawned
entity 0, then spawn again — the old handle stays invalid and its
component lookup is empty. -/
theorem C4_despawn_clears_and_invalidates_witness :
    (((World.empty : World Nat).spawn.1.despawn ⟨0, 0⟩).getComp 0 ⟨0, 0⟩ = none ∧
     ((World.empty : World Nat).spawn.1.isValid ⟨0, 0⟩ = true →
       (((World.empty : World Nat).spawn.1.despawn ⟨0, 0⟩).applyCmds
         [Cmd.spawnCmd]).isValid ⟨0, 0⟩ = false) ∧
     ((World.empty : World Nat).spawn.1.isValid ⟨0, 0⟩ = false →
       (World.empty : World Nat).spawn.1.despawn ⟨0, 0⟩ =
         (World.empty : World Nat).spawn.1)) :=
  C4_despawn_clears_and_invalidates (World.empty : World Nat).spawn.1 ⟨0, 0⟩ 0
    [Cmd.spawnCmd]

/-- C5: frame execution proceeds group by group (`runFrame` equals the
indexed group recursion); the structural changes a group submits are
applied in submission order only at the sync point after that group; an
entity valid at the start of a group is still valid in the mid-group
world after all of the group's in-place data writes even when the group
queued a despawn for it (deferral: no query in the same group observes
the despawn), and it is invalid by the start of the next group. -/
theorem C5_structural_changes_deferred (w : World α) (plan : List (List (Sys α)))
    (k : Nat) (e : Entity) :
    runFrame w plan = groupStart w plan plan.length ∧
    groupStart w plan (k + 1) =
      (groupCmds w plan k).foldl World.applyCmd
        ((groupResWrites w plan k).foldl World.applyResWrite
          ((groupWrites w plan k).foldl World.applyWrite (groupStart w plan k))) ∧
    ((groupStart w plan k).isValid e = true →
      ((groupResWrites w plan k).foldl World.applyResWrite
        ((groupWrites w plan k).foldl World.applyWrite
          (groupStart w plan k))).isValid e = true ∧
      (Cmd.despawnCmd e ∈ groupCmds w plan k →
        (groupStart w plan (k + 1)).isValid e = false)) := by
  refine ⟨runFrame_eq_groupStart w plan, groupStart_succ_eq w plan k, fun hv => ⟨?_, ?_⟩⟩
  · rw [isValid_congr (foldl_applyResWrite_slots _ _) e,
      isValid_congr (foldl_applyWrite_slots _ _) e]
    exact hv
  · intro hmem
    rw [groupStart_succ_eq w plan k]
    have hvmid : ((groupResWrites w plan k).foldl World.applyResWrite
        ((groupWrites w plan k).foldl World.applyWrite
          (groupStart w plan k))).isValid e = true := by
      rw [isValid_congr (foldl_applyResWrite_slots _ _) e,
        isValid_congr (foldl_applyWrite_slots _ _) e]
      exact hv
    exact applyCmds_despawn_invalid (groupCmds w plan k) hvmid hmem

/-- Witness for C5: one group holding a single system that defers a
despawn of the (valid) entity 0; the entity is still valid mid-group and
invalid at the start of the next group. -/
theorem C5_structural_changes_deferred_witness :
    runFrame (World.empty : World Nat).spawn.1 [[sysDespawner]] =
      groupStart (World.empty : World Nat).spawn.1 [[sysDespawner]]
        [[sysDespawner]].length ∧
    groupStart (World.empty : World Nat).spawn.1 [[sysDespawner]] (0 + 1) =
      (groupCmds (World.empty : World Nat).spawn.1 [[sysDespawner]] 0).foldl
        World.applyCmd
        ((groupResWrites (World.empty : World Nat).spawn.1 [[sysDespawner]] 0).foldl
          World.applyResWrite
          ((groupWrites (World.empty : World Nat).spawn.1 [[sysDespawner]] 0).foldl
            World.applyWrite
            (groupStart (World.empty : World Nat).spawn.1 [[sysDespawner]] 0))) ∧
    ((groupStart (World.empty : World Nat).spawn.1 [[sysDespawner]] 0).isValid
        ⟨0, 0⟩ = true →
      ((groupResWrites (World.empty : World Nat).spawn.1 [[sysDespawner]] 0).foldl
        World.applyResWrite
        ((groupWrites (World.empty : World Nat).spawn.1 [[sysDespawner]] 0).foldl
          World.applyWrite
          (groupStart (World.empty : World Nat).spawn.1 [[sysDespawner]] 0))).isValid
        ⟨0, 0⟩ = true ∧
      (Cmd.despawnCmd ⟨0, 0⟩ ∈
          groupCmds (World.empty : World Nat).spawn.1 [[sysDespawner]] 0 →
        (groupStart (World.empty : World Nat).spawn.1 [[sysDespawner]]
          (0 + 1)).isValid ⟨0, 0⟩ = false)) :=
  C5_structural_changes_deferred (World.empty : World Nat).spawn.1
    [[sysDespawner]] 0 ⟨0, 0⟩

theorem groupFailuresAux_nil_iff (g : List (SysR α)) (w : World α) :
    ∀ i, (groupFailuresAux w i g = [] ↔ ∀ s ∈ g, (s w).isSome = true) := by
  induction g with
  | nil => intro i; simp [groupFailuresAux]
  | cons s rest ih =>
    intro i
    cases hsw : s w with
    | none =>
      simp only [groupFailuresAux, hsw]
      constructor
      · intro h
        exact absurd h (by simp)
      · intro h
        have hsome := h s (List.mem_cons_self _ _)
        rw [hsw] at hsome
        exact absurd hsome (by simp)
    | some eff =>
      simp only [groupFailuresAux, hsw]
      rw [ih (i + 1)]
      constructor
      · intro h s' hs'
        rcases List.mem_cons.mp hs' with h0 | h0
        · rw [h0, hsw]; rfl
        · exact h s' h0
      · intro h s' hs'
        exact h s' (List.mem_cons_of_mem _ hs')

theorem groupStartR_cons (w : World α) (g : List (SysR α))
    (plan : List (List (SysR α))) (k : Nat) :
    groupStartR w (g :: plan) (k + 1) = groupStartR (stepGroupR w g).1 plan k := by
  induction k with
  | zero => rfl
  | succ k ih =>
    show (stepGroupR (groupStartR w (g :: plan) (k + 1)) ((g :: plan).getD (k + 1) [])).1 =
      (stepGroupR (groupStartR (stepGroupR w g).1 plan k) (plan.getD k [])).1
    rw [ih, List.getD_cons_succ]

theorem advanceFrameAux_world (plan : List (List (SysR α))) :
    ∀ (w : World α) (k : Nat),
      (advanceFrameAux w k plan).1 = groupStartR w plan plan.length := by
  induction plan with
  | nil => intro w k; rfl
  | cons g rest ih =>
    intro w k
    show (advanceFrameAux (stepGroupR w g).1 (k + 1) rest).1 =
      groupStartR w (g :: rest) (rest.length + 1)
    rw [groupStartR_cons]
    exact ih _ _

theorem advanceFrameAux_failures (plan : List (List (SysR α))) :
    ∀ (w : World α) (k : Nat),
      ((advanceFrameAux w k plan).2 = [] ↔
        ∀ j, j < plan.length → ∀ s ∈ plan.getD j [],
          (s (groupStartR w plan j)).isSome = true) := by
  induction plan with
  | nil => intro w k; simp [advanceFrameAux]
  | cons g rest ih =>
    intro w k
    show ((stepGroupR w g).2.map (fun i => (k, i)) ++
        (advanceFrameAux (stepGroupR w g).1 (k + 1) rest).2 = [] ↔ _)
    rw [List.append_eq_nil, List.map_eq_nil_iff,
      show (stepGroupR w g).2 = groupFailuresAux w 0 g from rfl,
      groupFailuresAux_nil_iff g w 0, ih (stepGroupR w g).1 (k + 1)]
    constructor
    · rintro ⟨h0, hrest⟩ j hj s hs
      cases j with
      | zero => exact h0 s hs
      | succ j =>
        rw [groupStartR_cons]
        exact hrest j (Nat.lt_of_succ_lt_succ hj) s hs
    · intro hall
      constructor
      · intro s hs
        exact hall 0 (Nat.succ_pos _) s hs
      · intro j hj s hs
        have := hall (j + 1) (Nat.succ_lt_succ hj) s hs
        rw [groupStartR_cons] at this
        exact this

/-- C6: a failing system invocation never aborts the frame — the
post-frame World is always the full group-by-group recursion through
every Execution Group — and `advance_frame`'s failure list is empty
exactly when every system invocation of every group succeeded, so the
caller receives either success or the per-system failures after the
frame completes. -/
theorem C6_system_failure_does_not_abort_frame (w : World α)
    (plan : List (List (SysR α))) :
    (advanceFrame w plan).1 = groupStartR w plan plan.length ∧
    ((advanceFrame w plan).2 = [] ↔
      ∀ k, k < plan.length → ∀ s ∈ plan.getD k [],
        (s (groupStartR w plan k)).isSome = true) :=
  ⟨advanceFrameAux_world plan w 0, advanceFrameAux_failures plan w 0⟩

/-- Witness for C6: a plan whose first group panics and whose second
group succeeds — the frame still reaches the second group and the
failure list is the non-empty per-system report. -/
theorem C6_system_failure_does_not_abort_frame_witness :
    (advanceFrame (World.empty : World Nat) [[sysPanics], [sysNoEffect]]).1 =
      groupStartR (World.empty : World Nat) [[sysPanics], [sysNoEffect]]
        [[sysPanics], [sysNoEffect]].length ∧
    ((advanceFrame (World.empty : World Nat) [[sysPanics], [sysNoEffect]]).2 = [] ↔
      ∀ k, k < [[sysPanics], [sysNoEffect]].length →
        ∀ s ∈ [[sysPanics], [sysNoEffect]].getD k [],
          (s (groupStartR (World.empty : World Nat)
            [[sysPanics], [sysNoEffect]] k)).isSome = true) :=
  C6_system_failure_does_not_abort_frame (World.empty : World Nat)
    [[sysPanics], [sysNoEffect]]

theorem get_none_of_no_key {r : ResStore α} {t : Nat}
    (h : ∀ p ∈ r.entries, p.1 ≠ t) : r.get t = none := by
  unfold ResStore.get
  rw [show (r.entries.find? fun p => p.1 == t) = none from
    List.find?_eq_none.mpr (fun x hx => by simp [h x hx])]
  rfl

theorem ResStore_get_insert_same (r : ResStore α) (t : Nat) (v : α) :
    (r.insert t v).get t = some v := by
  unfold ResStore.insert ResStore.get
  rw [List.find?_cons_of_pos _ (by simp)]
  rfl

theorem foldl_insert_no_key (inserts : List (Nat × α)) (t : Nat) :
    ∀ (r : ResStore α), (∀ p ∈ r.entries, p.1 ≠ t) → (∀ p ∈ inserts, p.1 ≠ t) →
      (inserts.foldl (fun r2 p => r2.insert p.1 p.2) r).get t = none := by
  induction inserts with
  | nil => intro r hr _; exact get_none_of_no_key hr
  | cons q rest ih =>
    intro r hr hall
    show (rest.foldl (fun r2 p => r2.insert p.1 p.2) (r.insert q.1 q.2)).get t = none
    apply ih
    · intro p hp
      unfold ResStore.insert at hp
      rcases List.mem_cons.mp hp with h0 | h0
      · rw [h0]
        exact hall q (List.mem_cons_self _ _)
      · exact hr p (List.mem_of_mem_filter h0)
    · intro p hp
      exact hall p (List.mem_cons_of_mem _ hp)

/-- C7: a resource type never inserted reads back as the empty result
(`MissingResource` is recoverable, the accessor is total), and once
`insert t v` has run, `get t` returns exactly the inserted value. -/
theorem C7_resource_get_before_and_after (r : ResStore α) (t : Nat) (v : α)
    (inserts : List (Nat × α)) :
    (ResStore.empty : ResStore α).get t = none ∧
    (r.insert t v).get t = some v ∧
    ((∀ p ∈ inserts, p.1 ≠ t) →
      (inserts.foldl (fun r2 p => r2.insert p.1 p.2)
        (ResStore.empty : ResStore α)).get t = none) := by
  refine ⟨rfl, ResStore_get_insert_same r t v, fun h => ?_⟩
  exact foldl_insert_no_key inserts t ResStore.empty
    (fun p hp => absurd hp (List.not_mem_nil p)) h

/-- Witness for C7 at concrete values: type 1 reads empty before any
insert of type 1 (even after inserting type 0), and reads 7 after
`insert 1 7`. -/
theorem C7_resource_get_before_and_after_witness :
    (ResStore.empty : ResStore Nat).get 1 = none ∧
    ((⟨[]⟩ : ResStore Nat).insert 1 7).get 1 = some 7 ∧
    ((∀ p ∈ [((0 : Nat), (5 : Nat))], p.1 ≠ 1) →
      ([((0 : Nat), (5 : Nat))].foldl (fun r2 p => r2.insert p.1 p.2)
        (ResStore.empty : ResStore Nat)).get 1 = none) :=
  C7_resource_get_before_and_after ⟨[]⟩ 1 7 [(0, 5)]

theorem runFrames_events (plan : List (List (Sys α))) :
    ∀ (n : Nat) (w : World α),
      (runFrames plan n w).2 = List.replicate n RuntimeEvent.frameEvt := by
  intro n
  induction n with
  | zero => intro w; rfl
  | succ n ih =>
    intro w
    show RuntimeEvent.frameEvt :: (runFrames plan n (runFrame w plan)).2 =
      List.replicate (n + 1) RuntimeEvent.frameEvt
    rw [ih]
    rfl

/-- C8: the one-shot startup event runs exactly once per run,
synchronously at the head of the event trace — before the first frame —
and a startup failure is surfaced in the report while all `n` frames
still run. -/
theorem C8_startup_event_once_before_frames
    (startupH : World α → Option (SysEff α)) (plan : List (List (Sys α)))
    (w : World α) (n : Nat) :
    (Runtime.run startupH plan w n).events =
      RuntimeEvent.startupEvt :: List.replicate n RuntimeEvent.frameEvt ∧
    (Runtime.run startupH plan w n).events.count RuntimeEvent.startupEvt = 1 ∧
    (Runtime.run startupH plan w n).startupFailed = (startupH w).isNone := by
  have hev : (Runtime.run startupH plan w n).events =
      RuntimeEvent.startupEvt :: List.replicate n RuntimeEvent.frameEvt := by
    unfold Runtime.run
    cases hs : startupH w with
    | some eff =>
      show RuntimeEvent.startupEvt :: (runFrames plan n (applyEff w eff)).2 = _
      rw [runFrames_events]
    | none =>
      show RuntimeEvent.startupEvt :: (runFrames plan n w).2 = _
      rw [runFrames_events]
  refine ⟨hev, ?_, ?_⟩
  · rw [hev, List.count_cons, List.count_replicate]
    simp
  · unfold Runtime.run
    cases hs : startupH w with
    | some eff => rfl
    | none => rfl

/-- C9: the end-to-end scenario — system A (reads resource `Clock`,
writes component `Position`) and system B (reads component `Position`,
writes resource `Score`) conflict on `Position`, so the plan is exactly
group 0 = [A], group 1 = [B]; and one frame over a single entity with
`Position{y:0}`, `velocity.y = 5` and `delta = 1.0` leaves the entity at
`Position{y:5}`. -/
theorem C9_end_to_end_scenario :
    buildPlan [descA, descB] = [[descA], [descB]] ∧
    (runFrame w9 [[player_update_system], [scoreSystem]]).getComp PositionId e0 =
      some (Val.transform ⟨0, 5, 0⟩) := by
  refine ⟨by decide, ?_⟩
  have h : (runFrame w9 [[player_update_system], [scoreSystem]]).getComp PositionId e0 =
      some (Val.transform ⟨0, 0 + 5 * 1, 0⟩) := rfl
  rw [h]
  norm_num

theorem stepGroup_single (w : World α) (s : Sys α) :
    stepGroup w [s] = ((s w).cmds).foldl World.applyCmd
      (((s w).resWrites).foldl World.applyResWrite
        (((s w).writes).foldl World.applyWrite w)) := by
  unfold stepGroup
  simp

theorem compAt_applyWrite (w : World α) (wr : Nat × Nat × α) (t i : Nat) :
    (w.applyWrite wr).compAt t i =
      if t = wr.1 ∧ i = wr.2.1 then (w.compAt t i).map (fun _ => wr.2.2)
      else w.compAt t i := by
  obtain ⟨t0, i0, v0⟩ := wr
  unfold World.applyWrite World.compAt
  rw [List.find?_map]
  rw [show ((fun c : Nat × Nat × α => c.1 == t && c.2.1 == i) ∘
      (fun c : Nat × Nat × α =>
        if c.1 == t0 && c.2.1 == i0 then (c.1, c.2.1, v0) else c)) =
      (fun c : Nat × Nat × α => c.1 == t && c.2.1 == i) from funext fun c => by
    by_cases hc : (c.1 == t0 && c.2.1 == i0) = true
    · simp [Function.comp, hc]
    · simp [Function.comp, hc]]
  cases hf : w.comps.find? (fun c => c.1 == t && c.2.1 == i) with
  | none =>
    simp only [hf, Option.map_none]
    split <;> rfl
  | some c =>
    have hc := List.find?_some hf
    simp only [Bool.and_eq_true, beq_iff_eq] at hc
    obtain ⟨hct, hci⟩ := hc
    simp only [hf, Option.map_some]
    by_cases h : t = t0 ∧ i = i0
    · rw [if_pos h]
      simp [hct, hci, h.1, h.2]
    · rw [if_neg h]
      have hcond : (c.1 == t0 && c.2.1 == i0) = false := by
        rcases not_and_or.mp h with h1 | h1
        · have hne : c.1 ≠ t0 := by rw [hct]; exact h1
          simp [hne]
        · have hne : c.2.1 ≠ i0 := by rw [hci]; exact h1
          simp [hne]
      simp [hcond,
        if_neg (fun hcc : c.1 = t0 ∧ c.2.1 = i0 =>
          h ⟨hct.symm.trans hcc.1, hci.symm.trans hcc.2⟩)]

theorem compAt_foldl_applyWrite_untouched (ws : List (Nat × Nat × α)) :
    ∀ (w : World α) (t i : Nat), (∀ wr ∈ ws, ¬(t = wr.1 ∧ i = wr.2.1)) →
      (ws.foldl World.applyWrite w).compAt t i = w.compAt t i := by
  induction ws with
  | nil => intro w t i _; rfl
  | cons wr rest ih =>
    intro w t i h
    show (rest.foldl World.applyWrite (w.applyWrite wr)).compAt t i = _
    rw [ih _ t i (fun wr' hw' => h wr' (List.mem_cons_of_mem _ hw')),
      compAt_applyWrite, if_neg (h wr (List.mem_cons_self _ _))]

theorem compAt_foldl_applyWrite_target (ws1 ws2 : List (Nat × Nat × α))
    (wr : Nat × Nat × α) (w : World α)
    (h1 : ∀ q ∈ ws1, ¬(wr.1 = q.1 ∧ wr.2.1 = q.2.1))
    (h2 : ∀ q ∈ ws2, ¬(wr.1 = q.1 ∧ wr.2.1 = q.2.1)) :
    ((ws1 ++ wr :: ws2).foldl World.applyWrite w).compAt wr.1 wr.2.1 =
      (w.compAt wr.1 wr.2.1).map (fun _ => wr.2.2) := by
  rw [List.foldl_append]
  show (ws2.foldl World.applyWrite
    ((ws1.foldl World.applyWrite w).applyWrite wr)).compAt wr.1 wr.2.1 = _
  rw [compAt_foldl_applyWrite_untouched ws2 _ wr.1 wr.2.1 h2,
    compAt_applyWrite, if_pos ⟨rfl, rfl⟩,
    compAt_foldl_applyWrite_untouched ws1 w wr.1 wr.2.1 h1]

theorem mem_queryTransformPlayer {w : World Val} {i : Nat} {tr vel : Vec3}
    (h : (i, tr, vel) ∈ queryTransformPlayer w) :
    w.slotAlive i = true ∧ w.compAt PositionId i = some (Val.transform tr) ∧
      w.compAt PlayerDataId i = some (Val.playerData vel) := by
  unfold queryTransformPlayer at h
  rw [List.mem_filterMap] at h
  obtain ⟨j, _, hfj⟩ := h
  by_cases ha : w.slotAlive j = true
  · rw [if_pos ha] at hfj
    cases hp : w.compAt PositionId j with
    | none => rw [hp] at hfj; simp at hfj
    | some vp =>
      cases hq : w.compAt PlayerDataId j with
      | none => rw [hp, hq] at hfj; cases vp <;> simp at hfj
      | some vq =>
        rw [hp, hq] at hfj
        cases vp with
        | transform tr' =>
          cases vq with
          | playerData vel' =>
            simp only [Option.some_inj, Prod.mk.injEq] at hfj
            obtain ⟨hj, htr, hvel⟩ := hfj
            subst hj
            subst htr
            subst hvel
            exact ⟨ha, hp, hq⟩
          | transform x => simp at hfj
          | timeVal x => simp at hfj
          | scoreVal x => simp at hfj
        | playerData x => cases vq <;> simp at hfj
        | timeVal x => cases vq <;> simp at hfj
        | scoreVal x => cases vq <;> simp at hfj
  · rw [if_neg ha] at hfj
    simp at hfj

theorem queryTransformPlayer_pairwise (w : World Val) :
    (queryTransformPlayer w).Pairwise (fun a b => a.1 < b.1) := by
  unfold queryTransformPlayer
  refine List.Pairwise.filterMap _ ?_ (List.pairwise_lt_range w.slots.length)
  intro a a' hlt b hb b' hb'
  have hb1 : b.1 = a := by
    by_cases ha : w.slotAlive a = true
    · rw [if_pos ha] at hb
      cases hp : w.compAt PositionId a with
      | none => rw [hp] at hb; simp at hb
      | some vp =>
        cases hq : w.compAt PlayerDataId a with
        | none => rw [hp, hq] at hb; cases vp <;> simp at hb
        | some vq =>
          rw [hp, hq] at hb
          cases vp <;> cases vq <;> simp at hb
          · rw [← hb]
    · rw [if_neg ha] at hb
      simp at hb
  have hb2 : b'.1 = a' := by
    by_cases ha : w.slotAlive a' = true
    · rw [if_pos ha] at hb'
      cases hp : w.compAt PositionId a' with
      | none => rw [hp] at hb'; simp at hb'
      | some vp =>
        cases hq : w.compAt PlayerDataId a' with
        | none => rw [hp, hq] at hb'; cases vp <;> simp at hb'
        | some vq =>
          rw [hp, hq] at hb'
          cases vp <;> cases vq <;> simp at hb'
          · rw [← hb']
    · rw [if_neg ha] at hb'
      simp at hb'
  rw [hb1, hb2]
  exact hlt

/-- C10: one invocation of `player_update_system` (with the `Time`
resource present at `delta`) changes, for each entity matched by
`Query<(&mut Transform, &PlayerData)>`, exactly the `y` field of the
Transform's translation — incremented by `velocity.y * delta` with `x`
and `z` carried over; every component of any other type (in particular
every `PlayerData`), the Transform of every unmatched entity, the slot
table, the free list and the resources are left unchanged. -/
theorem C10_player_update_only_moves_y (w : World Val) (delta : ℚ) (i : Nat)
    (tr vel : Vec3)
    (hd : w.resources.get ClockId = some (Val.timeVal delta)) :
    ((i, tr, vel) ∈ queryTransformPlayer w →
      (stepGroup w [player_update_system]).compAt PositionId i =
        some (Val.transform ⟨tr.x, tr.y + vel.y * delta, tr.z⟩)) ∧
    (∀ t j, t ≠ PositionId →
      (stepGroup w [player_update_system]).compAt t j = w.compAt t j) ∧
    ((∀ tr2 vel2, (i, tr2, vel2) ∉ queryTransformPlayer w) →
      (stepGroup w [player_update_system]).compAt PositionId i =
        w.compAt PositionId i) ∧
    (stepGroup w [player_update_system]).slots = w.slots ∧
    (stepGroup w [player_update_system]).freeList = w.freeList ∧
    (stepGroup w [player_update_system]).resources = w.resources := by
  have hsys : player_update_system w =
      ⟨(queryTransformPlayer w).map (playerWrite delta), [], []⟩ := by
    unfold player_update_system
    rw [hd]
  have hstep : stepGroup w [player_update_system] =
      ((queryTransformPlayer w).map (playerWrite delta)).foldl World.applyWrite w := by
    rw [stepGroup_single, hsys]
    rfl
  refine ⟨?_, ?_, ?_, ?_, ?_, ?_⟩
  · intro hmem
    obtain ⟨_, hp, _⟩ := mem_queryTransformPlayer hmem
    obtain ⟨s, tl, hsplit⟩ := List.append_of_mem hmem
    have hpw := queryTransformPlayer_pairwise w
    rw [hsplit, List.pairwise_append] at hpw
    obtain ⟨_, hxtl, hcross⟩ := hpw
    have hhead := (List.pairwise_cons.mp hxtl).1
    have h1 : ∀ q ∈ s.map (playerWrite delta),
        ¬((playerWrite delta (i, tr, vel)).1 = q.1 ∧
          (playerWrite delta (i, tr, vel)).2.1 = q.2.1) := by
      intro q hq
      obtain ⟨a, ha, rfl⟩ := List.mem_map.mp hq
      intro hcc
      have hlt : a.1 < i := hcross a ha (i, tr, vel) (List.mem_cons_self _ _)
      exact Nat.ne_of_gt hlt hcc.2
    have h2 : ∀ q ∈ tl.map (playerWrite delta),
        ¬((playerWrite delta (i, tr, vel)).1 = q.1 ∧
          (playerWrite delta (i, tr, vel)).2.1 = q.2.1) := by
      intro q hq
      obtain ⟨b, hb, rfl⟩ := List.mem_map.mp hq
      intro hcc
      have hlt : i < b.1 := hhead b hb
      exact Nat.ne_of_lt hlt hcc.2
    have htgt := compAt_foldl_applyWrite_target (s.map (playerWrite delta))
      (tl.map (playerWrite delta)) (playerWrite delta (i, tr, vel)) w h1 h2
    rw [hstep, hsplit, List.map_append, List.map_cons]
    show (((s.map (playerWrite delta)) ++
        playerWrite delta (i, tr, vel) :: tl.map (playerWrite delta)).foldl
          World.applyWrite w).compAt (playerWrite delta (i, tr, vel)).1
            (playerWrite delta (i, tr, vel)).2.1 =
      some (Val.transform ⟨tr.x, tr.y + vel.y * delta, tr.z⟩)
    rw [htgt]
    show (w.compAt PositionId i).map _ = _
    rw [hp]
    rfl
  · intro t j ht
    rw [hstep]
    apply compAt_foldl_applyWrite_untouched
    intro wr hwr
    obtain ⟨a, _, rfl⟩ := List.mem_map.mp hwr
    intro hcc
    exact ht hcc.1
  · intro hno
    rw [hstep]
    apply compAt_foldl_applyWrite_untouched
    intro wr hwr
    obtain ⟨a, ha, rfl⟩ := List.mem_map.mp hwr
    intro hcc
    apply hno a.2.1 a.2.2
    rw [hcc.2]
    exact ha
  · rw [hstep]
    exact foldl_applyWrite_slots _ _
  · rw [hstep]
    exact foldl_applyWrite_freeList _ _
  · rw [hstep]
    exact foldl_applyWrite_resources _ _

/-- Witness for C10 at the scenario world: the single matched entity 0
moves from y = 0 to y = 0 + 5 * 1; its PlayerData and the slot table
are untouched. -/
theorem C10_player_update_only_moves_y_witness :
    w9.resources.get ClockId = some (Val.timeVal 1) ∧
    (((0, (⟨0, 0, 0⟩ : Vec3), (⟨0, 5, 0⟩ : Vec3)) ∈ queryTransformPlayer w9 →
      (stepGroup w9 [player_update_system]).compAt PositionId 0 =
        some (Val.transform ⟨0, 0 + 5 * 1, 0⟩)) ∧
    (∀ t j, t ≠ PositionId →
      (stepGroup w9 [player_update_system]).compAt t j = w9.compAt t j) ∧
    ((∀ tr2 vel2, (0, tr2, vel2) ∉ queryTransformPlayer w9) →
      (stepGroup w9 [player_update_system]).compAt PositionId 0 =
        w9.compAt PositionId 0) ∧
    (stepGroup w9 [player_update_system]).slots = w9.slots ∧
    (stepGroup w9 [player_update_system]).freeList = w9.freeList ∧
    (stepGroup w9 [player_update_system]).resources = w9.resources) :=
  ⟨rfl, C10_player_update_only_moves_y w9 1 0 ⟨0, 0, 0⟩ ⟨0, 5, 0⟩ rfl⟩

/-- Witness for C2 at a concrete instance: one existing group conflicting
with the incoming system, so a new group opens at index 1. -/
theorem C2_build_is_greedy_first_fit_witness :
    buildPlan [descA, descB] = buildPlanSpec [descA, descB] ∧
    placeSystem [[descA]] descB = appendAt [[descA]] (earliestFit [[descA]] descB) descB ∧
    earliestFit [[descA]] descB ≤ [[descA]].length ∧
    (∀ j, j < earliestFit [[descA]] descB →
      (([[descA]].getD j []).any fun d2 => conflicts d2 descB) = true) ∧
    (earliestFit [[descA]] descB < [[descA]].length →
      (([[descA]].getD (earliestFit [[descA]] descB) []).any fun d2 => conflicts d2 descB) = false) ∧
    ([descA, descB] = [descA, descB] → buildPlan [descA, descB] = buildPlan [descA, descB]) :=
  C2_build_is_greedy_first_fit [descA, descB] [descA, descB] [[descA]] descB

end Pulsar
